import Mathlib

/-!
Verification of the heading/outline inference engine of `main.py`.

Shallow embedding of `parse_outline` (and the title plumbing of
`process_pdf` / `get_document_metadata`) from `src/main.py`.

Modelling conventions:
* PyMuPDF span dictionaries become the `Span` structure; the fields the code
  reads with `span.get(k, default)` are `Option`-valued (a `none` models a
  missing key), and `span["bbox"]` — read without a default — is also
  `Option`-valued, with a missing key turned into an `Except.error "bbox"`
  (modelling the `KeyError` Python would raise).
* Python floats are modelled by `ℚ`. `round(x, 1)` is modelled by
  `round1` (round half towards +∞ at the last decimal; Python uses
  banker's rounding, which differs only on exact ties at the half-tenth,
  a case no claim depends on).
* `str.strip()` is `pyStrip` (drops leading/trailing whitespace),
  `str.lower()` is `lowerStr` (ASCII lowering, enough for font names),
  `len(text)` is `String.length`, and `tok in s` is `strHas s tok`.
* Python's `dict` preserves insertion order, so `font_usage` is an
  association list (`bump` increments in place, appends new keys at the
  end), and `sorted(..., reverse=True)` — a stable sort — is the stable
  insertion sort `sortDescStable`.
-/

namespace PdfOutline

/-- One text span as delivered by `page.get_text("dict")`:
`size`, `font`, `text` are read by the code via `.get` with defaults,
`bbox` is read by direct indexing. -/
structure Span where
  size : Option ℚ
  font : Option String
  text : Option String
  bbox : Option (ℚ × ℚ × ℚ × ℚ)
deriving DecidableEq, Repr

/-- One line: a list of spans (`line["spans"]`). -/
structure Line where
  spans : List Span
deriving DecidableEq, Repr

/-- One block: `block["type"]` (`0` = text block) and `block["lines"]`. -/
structure Block where
  btype : Nat
  lines : List Line
deriving DecidableEq, Repr

/-- One page: `page.rect.width` and the blocks of `page.get_text("dict")`. -/
structure Page where
  width : ℚ
  blocks : List Block
deriving DecidableEq, Repr

/-- The document handed to `parse_outline`: `pdf_doc.name` and its pages. -/
structure Doc where
  name : String
  pages : List Page
deriving DecidableEq, Repr

/-- One outline entry `{"level": ..., "text": ..., "page": ...}`. -/
structure Entry where
  level : String
  text : String
  page : Nat
deriving DecidableEq, Repr

/-- Python `str.strip()`: drop leading and trailing whitespace. -/
def pyStrip (s : String) : String :=
  ⟨(((s.toList.dropWhile Char.isWhitespace).reverse).dropWhile
      Char.isWhitespace).reverse⟩

/-- Python `str.lower()` (ASCII range; font names are ASCII). -/
def lowerStr (s : String) : String :=
  ⟨s.toList.map Char.toLower⟩

/-- Does `hay` contain `needle` as a contiguous run? (Python `needle in hay`.) -/
def subAt (needle : List Char) : List Char → Bool
  | [] => needle.isEmpty
  | c :: cs => needle.isPrefixOf (c :: cs) || subAt needle cs

/-- String containment, Python `tok in f`. -/
def strHas (hay needle : String) : Bool :=
  subAt needle.toList hay.toList

/-- The weight tokens of `main.py` line 58: `("bold", "black", "heavy", "medium")`. -/
def weightTokens : List String := ["bold", "black", "heavy", "medium"]

/-- Python `any(tok in f.lower() for tok in (...))` (line 58). -/
def hasWeightToken (f : String) : Bool :=
  weightTokens.any (fun tok => strHas (lowerStr f) tok)

/-- The text blocks of a page, flattened into their lines: both passes do
`for block in blocks: if block.get("type") != 0: continue; for line in block["lines"]`. -/
def textLines (p : Page) : List Line :=
  (p.blocks.filter (fun b => b.btype == 0)).flatMap (fun b => b.lines)

/-- All spans of a page list, in scan order. -/
def pagesSpans (ps : List Page) : List Span :=
  ps.flatMap (fun p => (textLines p).flatMap (fun l => l.spans))

/-- All spans of the document, in scan order. -/
def docSpans (d : Doc) : List Span := pagesSpans d.pages

/-- The update `font_usage[font] = font_usage.get(font, 0) + 1` on an insertion-ordered
association list (Python `dict` preserves insertion order). -/
def bump (f : String) : List (String × Nat) → List (String × Nat)
  | [] => [(f, 1)]
  | (g, n) :: rest => if g = f then (g, n + 1) :: rest else (g, n) :: bump f rest

/-- The `font_usage` dictionary (lines 46-55): every span of every line of
every text block counts, keyed by `span.get("font", "")`. -/
def fontUsage (d : Doc) : List (String × Nat) :=
  (docSpans d).foldl (fun fu sp => bump (sp.font.getD "") fu) []

/-- The count `font_usage[f]` (with a `0` default that line 59 never hits). -/
def usageCount (fu : List (String × Nat)) (f : String) : Nat :=
  match fu.lookup f with
  | some n => n
  | none => 0

/-- The list `bold_fonts` (line 58): the fonts of `font_usage`, in insertion order,
whose lowercase name contains a weight token. -/
def boldFonts (d : Doc) : List String :=
  ((fontUsage d).filter (fun p => hasWeightToken p.1)).map Prod.fst

/-- Insert into a descending-by-key list, after all entries of ≥ key:
one step of a stable descending sort. -/
def insDesc (key : String → Nat) (f : String) : List String → List String
  | [] => [f]
  | g :: gs => if key g < key f then f :: g :: gs else g :: insDesc key f gs

/-- Stable sort by descending key, Python `sorted(l, key=..., reverse=True)`
(stable: ties keep first-seen order). -/
def sortDescStable (key : String → Nat) (l : List String) : List String :=
  l.foldl (fun acc f => insDesc key f acc) []

/-- The list `heading_fonts` (line 59): bold fonts sorted by descending span count
(ties first-seen), top 3. -/
def headingFonts (d : Doc) : List String :=
  (sortDescStable (usageCount (fontUsage d)) (boldFonts d)).take 3

/-- First index of `a` in a list (Python `list.index`); length if absent. -/
def idxOf {α : Type} [DecidableEq α] (a : α) : List α → Nat
  | [] => 0
  | b :: bs => if b = a then 0 else idxOf a bs + 1

/-- The level string: `H` followed by a 1-based rank (lines 84 and 106). -/
def hLevel (n : Nat) : String := "H" ++ toString n

/-- One line of the primary pass (lines 72-87): only single-span lines are
candidates; empty text or a non-heading font skips; the bounding box is read
without a default (`span["bbox"]`, an error when missing); short or very long
lines skip; otherwise an entry is appended and a page-1 line may claim the
title. -/
def primaryLine (hf : List String) (pageIdx : Nat) (pw : ℚ)
    (st : Option String × List Entry) (l : Line) :
    Except String (Option String × List Entry) :=
  match l.spans with
  | [sp] =>
    let text := pyStrip (sp.text.getD "")
    let font := sp.font.getD ""
    if text = "" ∨ font ∉ hf then .ok st
    else
      match sp.bbox with
      | none => .error "bbox"
      | some (x0, _, x1, _) =>
        if x1 - x0 < pw * (1 / 2) ∨ 100 < text.length then .ok st
        else
          let e : Entry := ⟨hLevel (idxOf font hf + 1), text, pageIdx⟩
          let t := if pageIdx = 1 ∧ st.1 = none then some text else st.1
          .ok (t, st.2 ++ [e])
  | _ => .ok st

/-- The primary pass over the lines of one page. -/
def primaryLines (hf : List String) (pageIdx : Nat) (pw : ℚ) :
    Option String × List Entry → List Line →
    Except String (Option String × List Entry)
  | st, [] => .ok st
  | st, l :: ls =>
    match primaryLine hf pageIdx pw st l with
    | .error e => .error e
    | .ok st' => primaryLines hf pageIdx pw st' ls

/-- The primary pass over the pages (lines 66-87): `page_width` is captured
from the first iterated page (`if page_width is None`) and reused for every
later page. -/
def primaryPages (hf : List String) :
    Option String × List Entry → Nat → Option ℚ → List Page →
    Except String (Option String × List Entry)
  | st, _, _, [] => .ok st
  | st, pageIdx, pwOpt, p :: ps =>
    let pw := pwOpt.getD p.width
    match primaryLines hf pageIdx pw st (textLines p) with
    | .error e => .error e
    | .ok st' => primaryPages hf st' (pageIdx + 1) (some pw) ps

/-- The whole primary pass of `parse_outline`. -/
def primaryResult (d : Doc) : Except String (Option String × List Entry) :=
  primaryPages (headingFonts d) (none, []) 1 none d.pages

/-- Python `round(x, 1)` (line 98), modelled at half-tenth ties by round-half-up. -/
def round1 (x : ℚ) : ℚ := ((round (x * 10) : ℤ) : ℚ) / 10

/-- The `(size, page_idx, txt)` tuples one page contributes to `all_spans`
(lines 93-101): every span of every line, rounded size with default 0,
stripped text, empty text dropped. -/
def spanTuples (pageIdx : Nat) (p : Page) : List (ℚ × Nat × String) :=
  (textLines p).flatMap (fun l =>
    l.spans.filterMap (fun sp =>
      let txt := pyStrip (sp.text.getD "")
      if txt = "" then none
      else some (round1 (sp.size.getD 0), pageIdx, txt)))

/-- The list `all_spans` over the pages starting at a given 1-based index. -/
def allSpans : Nat → List Page → List (ℚ × Nat × String)
  | _, [] => []
  | pageIdx, p :: ps => spanTuples pageIdx p ++ allSpans (pageIdx + 1) ps

/-- Insert into a descending list of rationals. -/
def insDescQ (x : ℚ) : List ℚ → List ℚ
  | [] => [x]
  | y :: ys => if y < x then x :: y :: ys else y :: insDescQ x ys

/-- Sort rationals in descending order. -/
def sortDescQ (l : List ℚ) : List ℚ :=
  l.foldl (fun acc x => insDescQ x acc) []

/-- The distinct elements of a list (the Python set `{s for s, _, _ in
all_spans}`; which duplicate is kept is irrelevant once sorted). -/
def distinctQ : List ℚ → List ℚ
  | [] => []
  | x :: xs => if x ∈ xs then distinctQ xs else x :: distinctQ xs

/-- The list `top_sizes` (line 103): the distinct sizes of `all_spans`, sorted in
descending order, top 3.  No size is removed before taking the top 3. -/
def topSizesOf (spans : List (ℚ × Nat × String)) : List ℚ :=
  (sortDescQ (distinctQ (spans.map Prod.fst))).take 3

/-- The fallback loop over `all_spans` (lines 104-109): every tuple whose size
is a top size is appended as an entry; a page-1 tuple at the largest size may
claim the title (checked against `top_sizes[0]`). -/
def fallbackFold (top : List ℚ) :
    Option String → List Entry → List (ℚ × Nat × String) →
    Option String × List Entry
  | t, acc, [] => (t, acc)
  | t, acc, (s, pg, txt) :: rest =>
    if s ∈ top then
      let acc' := acc ++ [⟨hLevel (idxOf s top + 1), txt, pg⟩]
      let t' := if pg = 1 ∧ t = none ∧ top.head? = some s then some txt else t
      fallbackFold top t' acc' rest
    else fallbackFold top t acc rest

/-- The size fallback (lines 90-109), run when the primary pass produced no
outline. -/
def fallbackPass (d : Doc) (t0 : Option String) : Option String × List Entry :=
  let spans := allSpans 1 d.pages
  if spans = [] then (t0, [])
  else fallbackFold (topSizesOf spans) t0 [] spans

/-- Python `os.path.basename`: everything after the last `/`. -/
def basename (s : String) : String :=
  ⟨(s.toList.reverse.takeWhile (fun c => c ≠ '/')).reverse⟩

/-- Python `os.path.splitext(b)[0]` for a string without separators: cut at the last
dot, unless every character before it is a dot (then nothing is cut). -/
def splitextRoot (b : String) : String :=
  let cs := b.toList
  match cs.reverse.findIdx? (fun c => c = '.') with
  | none => b
  | some k =>
    let dotIdx := cs.length - 1 - k
    if (cs.take dotIdx).all (fun c => c = '.') then b
    else ⟨cs.take dotIdx⟩

/-- The default title `os.path.splitext(os.path.basename(pdf_doc.name))[0]` (line 113). -/
def defaultName (name : String) : String := splitextRoot (basename name)

/-- The function `parse_outline` (lines 40-115): primary font pass, size fallback when it
produced no outline, base-name default title. -/
def parse_outline (d : Doc) : Except String (String × List Entry) :=
  match primaryResult d with
  | .error e => .error e
  | .ok (t, outl) =>
    let r := if outl = [] then fallbackPass d t else (t, outl)
    .ok (r.1.getD (defaultName d.name), r.2)

/-- The metadata record of `get_document_metadata` (lines 23-37). -/
structure Metadata where
  title : Option String
  author : Option String
  creationDate : Option String
  modDate : Option String
  pageCount : Nat
deriving DecidableEq, Repr

/-- The `"title"` key of the JSON written by `process_pdf` (lines 215-234):
it is the first component of `parse_outline`'s result; the metadata record is
stored under its own `"metadata"` key and plays no part in the title. -/
def processTitle (d : Doc) (meta : Metadata) : Except String String :=
  match parse_outline d with
  | .error e => .error e
  | .ok (t, _) => .ok t

/-- Modelled from the spec (§4.2, size-mode selection — no counterpart in
`src/main.py`): `len(txt.split())`, the number of maximal whitespace-free
words of a string. -/
def specWordCount (s : String) : Nat :=
  ((s.toList.splitOnP Char.isWhitespace).filter (fun w => w ≠ [])).length

/-- Modelled from the spec (§4.2): aggregate word count per rounded size,
first-seen order. -/
def specSizeWords (spans : List (ℚ × Nat × String)) : List (ℚ × Nat) :=
  spans.foldl (fun acc t => bumpQ t.1 (specWordCount t.2.2) acc) []
where
  /-- add `w` words to size `s` in an insertion-ordered association list. -/
  bumpQ (s : ℚ) (w : Nat) : List (ℚ × Nat) → List (ℚ × Nat)
    | [] => [(s, w)]
    | (u, n) :: rest =>
      if u = s then (u, n + w) :: rest else (u, n) :: bumpQ s w rest

/-- Modelled from the spec (§4.2): the body size — the size with the maximal
aggregate word count, first seen winning ties. -/
def specBodySize (spans : List (ℚ × Nat × String)) : Option ℚ :=
  match specSizeWords spans with
  | [] => none
  | (s, n) :: rest => some (go s n rest)
where
  go (s : ℚ) (n : Nat) : List (ℚ × Nat) → ℚ
    | [] => s
    | (u, m) :: rest => if n < m then go u m rest else go s n rest

/-- How an entry can arise from one line of the primary pass: the line has
exactly one span, the entry's text is the stripped span text, its page is the
pass's page index, and its level is the 1-based rank of the span's font among
the heading fonts. -/
def lineEntry (hf : List String) (pageIdx : Nat) (l : Line) (e : Entry) : Prop :=
  ∃ sp, l.spans = [sp] ∧
    e.text = pyStrip (sp.text.getD "") ∧
    e.page = pageIdx ∧
    (sp.font.getD "") ∈ hf ∧
    e.level = hLevel (idxOf (sp.font.getD "") hf + 1)

/-- How an entry can arise from the fallback loop: it is built from a tuple of
`all_spans` whose size is among the top sizes, at that size's 1-based rank. -/
def tupleEntry (top : List ℚ) (tuples : List (ℚ × Nat × String)) (e : Entry) :
    Prop :=
  ∃ s pg txt, (s, pg, txt) ∈ tuples ∧ s ∈ top ∧
    e = ⟨hLevel (idxOf s top + 1), txt, pg⟩

/-- Replace a page's width, keeping its content. -/
def setWidth (w : ℚ) (p : Page) : Page := ⟨w, p.blocks⟩

/-- Give every page the width of the first page. -/
def normWidths (d : Doc) : Doc :=
  match d.pages with
  | [] => d
  | p :: ps => ⟨d.name, p :: ps.map (setWidth p.width)⟩

/-! ## Concrete documents used to evaluate the passes -/

/-- A span with only a font and a one-letter text (for font counting). -/
def fontSpan (f : String) : Span := ⟨none, some f, some "x", none⟩

/-- Fonts `{"Arial-Bold": 5, "Arial": 50, "Times-Black": 3}`, all in one
multi-span line. -/
def c6doc : Doc :=
  ⟨"doc6.pdf",
    [⟨100, [⟨0, [⟨List.replicate 5 (fontSpan "Arial-Bold") ++
                  List.replicate 50 (fontSpan "Arial") ++
                  List.replicate 3 (fontSpan "Times-Black")⟩]⟩]⟩]⟩

/-- Two weight-token fonts with equal span counts, `X-Bold` seen first. -/
def c6tie : Doc :=
  ⟨"tie.pdf",
    [⟨100, [⟨0, [⟨List.replicate 2 (fontSpan "X-Bold") ++
                  List.replicate 2 (fontSpan "Y-Bold")⟩]⟩]⟩]⟩

/-- No weight-token font, three sizes on page 1; the size-12 span carries ten
words (the maximal aggregate word count, hence the spec's body size). -/
def c1doc : Doc :=
  ⟨"doc1.pdf",
    [⟨100, [⟨0,
      [⟨[⟨some 24, some "Regular", some "Big Title", none⟩]⟩,
       ⟨[⟨some 18, some "Regular", some "Mid Head", none⟩]⟩,
       ⟨[⟨some 12, some "Regular", some "a b c d e f g h i j", none⟩]⟩]⟩]⟩]⟩

/-- One accepted heading whose text begins and ends with em-dashes. -/
def c2doc : Doc :=
  ⟨"doc2.pdf",
    [⟨100, [⟨0, [⟨[⟨none, some "F-Bold", some "—Introduction—",
                    some (0, 0, 60, 10)⟩]⟩]⟩]⟩]⟩

/-- A document with no pages at all (no page-1 heading spans). -/
def c3doc : Doc := ⟨"dir/report.pdf", []⟩

/-- A metadata record with a non-empty (once trimmed) title field. -/
def c3meta : Metadata := ⟨some "  Meta  ", none, none, none, 0⟩

/-- Page 1 holds a span of the rank-1 heading font (`B-Bold`); the rank-0
font (`A-Bold`) only occurs in a two-span line on page 2. -/
def c5doc : Doc :=
  ⟨"doc5.pdf",
    [⟨100, [⟨0, [⟨[⟨none, some "B-Bold", some "SubHead",
                    some (0, 0, 60, 10)⟩]⟩]⟩]⟩,
     ⟨100, [⟨0, [⟨[⟨none, some "A-Bold", some "x", none⟩,
                   ⟨none, some "A-Bold", some "y", none⟩]⟩]⟩]⟩]⟩

/-- Two spans whose texts are whitespace-only or missing: no extractable span. -/
def c8doc : Doc :=
  ⟨"blank.pdf",
    [⟨100, [⟨0, [⟨[⟨none, none, some "   ", none⟩,
                   ⟨none, none, none, none⟩]⟩]⟩]⟩]⟩

/-- A heading-font single-span line with non-empty text but no bounding box:
a document on which extraction does not produce a well-formed result. -/
def c8errdoc : Doc :=
  ⟨"err.pdf",
    [⟨100, [⟨0, [⟨[⟨none, some "G-Bold", some "Oops", none⟩]⟩]⟩]⟩]⟩

/-- A single-span line in a heading font with non-empty text but no bounding
box. -/
def c9doc : Doc :=
  ⟨"doc9.pdf",
    [⟨100, [⟨0, [⟨[⟨none, some "F-Bold", some "Heading", none⟩]⟩]⟩]⟩]⟩

/-- A span with every field missing. -/
def c9wdoc : Doc :=
  ⟨"blank9.pdf", [⟨100, [⟨0, [⟨[⟨none, none, none, none⟩]⟩]⟩]⟩]⟩

/-- Page 1 is 100 wide with no text; page 2 is 1000 wide and holds a span of
bounding-box width 60 — at least half of page 1's width, well under half of
page 2's own width. -/
def c10doc : Doc :=
  ⟨"w.pdf",
    [⟨100, []⟩,
     ⟨1000, [⟨0, [⟨[⟨none, some "F-Bold", some "Wide",
                     some (0, 0, 60, 10)⟩]⟩]⟩]⟩]⟩

/-! ## Helper lemmas -/

theorem idxOf_lt_length {α : Type} [DecidableEq α] {a : α} :
    ∀ {l : List α}, a ∈ l → idxOf a l < l.length := by
  intro l h
  induction l with
  | nil => cases h
  | cons b bs ih =>
    by_cases hb : b = a
    · simp [idxOf, hb]
    · rcases List.mem_cons.mp h with h1 | h2
      · exact absurd h1.symm hb
      · simpa [idxOf, hb] using ih h2

theorem hLevel_cases {k : Nat} (h : k < 3) :
    hLevel (k + 1) = "H1" ∨ hLevel (k + 1) = "H2" ∨ hLevel (k + 1) = "H3" := by
  interval_cases k
  · exact Or.inl (by decide)
  · exact Or.inr (Or.inl (by decide))
  · exact Or.inr (Or.inr (by decide))

theorem primaryLine_ok {hf : List String} {pi : Nat} {pw : ℚ}
    {st st' : Option String × List Entry} {l : Line}
    (h : primaryLine hf pi pw st l = .ok st') :
    st' = st ∨
      ∃ e, lineEntry hf pi l e ∧ st'.2 = st.2 ++ [e] ∧
        st'.1 = if pi = 1 ∧ st.1 = none then some e.text else st.1 := by
  rcases hsp : l.spans with _ | ⟨sp, _ | ⟨sp2, rest⟩⟩
  · simp only [primaryLine, hsp] at h
    exact Or.inl (by cases h; rfl)
  · simp only [primaryLine, hsp] at h
    by_cases hcond : pyStrip (sp.text.getD "") = "" ∨ (sp.font.getD "") ∉ hf
    · rw [if_pos hcond] at h
      exact Or.inl (by cases h; rfl)
    · rw [if_neg hcond] at h
      rcases hbb : sp.bbox with _ | ⟨x0, y0, x1, y1⟩
      · simp only [hbb] at h
        cases h
      · simp only [hbb] at h
        by_cases hsz : x1 - x0 < pw * (1 / 2) ∨
            100 < (pyStrip (sp.text.getD "")).length
        · rw [if_pos hsz] at h
          exact Or.inl (by cases h; rfl)
        · rw [if_neg hsz] at h
          cases h
          refine Or.inr ⟨⟨hLevel (idxOf (sp.font.getD "") hf + 1),
            pyStrip (sp.text.getD ""), pi⟩, ⟨sp, hsp, rfl, rfl, ?_, rfl⟩, rfl, rfl⟩
          push_neg at hcond
          exact hcond.2
  · simp only [primaryLine, hsp] at h
    exact Or.inl (by cases h; rfl)

theorem primaryLines_ok {hf : List String} {pi : Nat} {pw : ℚ} :
    ∀ {ls : List Line} {st st' : Option String × List Entry},
      primaryLines hf pi pw st ls = .ok st' →
      ∃ Δ, st'.2 = st.2 ++ Δ ∧ (∀ e ∈ Δ, ∃ l ∈ ls, lineEntry hf pi l e) ∧
        st'.1 = (if pi = 1 ∧ st.1 = none then (Δ.head?).map Entry.text
                 else st.1) := by
  intro ls
  induction ls with
  | nil =>
    intro st st' h
    simp only [primaryLines] at h
    cases h
    refine ⟨[], by simp, by simp, ?_⟩
    split <;> simp_all
  | cons l ls ih =>
    intro st st' h
    simp only [primaryLines] at h
    rcases hstep : primaryLine hf pi pw st l with e | stm
    · rw [hstep] at h; cases h
    · rw [hstep] at h
      rcases ih h with ⟨Δ, hout, hmem, htitle⟩
      rcases primaryLine_ok hstep with heq | ⟨e0, he0, hout0, htitle0⟩
      · subst heq
        exact ⟨Δ, hout, fun e he => (hmem e he).imp
          (fun l' hl' => ⟨List.mem_cons_of_mem _ hl'.1, hl'.2⟩), htitle⟩
      · refine ⟨e0 :: Δ, by simp [hout, hout0], ?_, ?_⟩
        · intro e he
          rcases List.mem_cons.mp he with rfl | he2
          · exact ⟨l, List.mem_cons_self _ _, he0⟩
          · exact (hmem e he2).imp fun l' hl' =>
              ⟨List.mem_cons_of_mem _ hl'.1, hl'.2⟩
        · rw [htitle, htitle0]
          by_cases hc : pi = 1 ∧ st.1 = none
          · simp [hc]
          · simp only [if_neg hc]

theorem primaryPages_ok {hf : List String} :
    ∀ {ps : List Page} {st st' : Option String × List Entry} {pi : Nat}
      {pwOpt : Option ℚ},
      primaryPages hf st pi pwOpt ps = .ok st' →
      ∃ Δ, st'.2 = st.2 ++ Δ ∧
        ∀ e ∈ Δ, ∃ p ∈ ps, ∃ j, pi ≤ j ∧
          ∃ l ∈ textLines p, lineEntry hf j l e := by
  intro ps
  induction ps with
  | nil =>
    intro st st' pi pwOpt h
    simp only [primaryPages] at h
    cases h
    exact ⟨[], by simp, by simp⟩
  | cons p ps ih =>
    intro st st' pi pwOpt h
    simp only [primaryPages] at h
    rcases hstep : primaryLines hf pi (pwOpt.getD p.width) st (textLines p)
      with e | stm
    · rw [hstep] at h; cases h
    · rw [hstep] at h
      rcases ih h with ⟨Δ2, hout2, hmem2⟩
      rcases primaryLines_ok hstep with ⟨Δ1, hout1, hmem1, -⟩
      refine ⟨Δ1 ++ Δ2, by simp [hout2, hout1], ?_⟩
      intro e he
      rcases List.mem_append.mp he with h1 | h2
      · rcases hmem1 e h1 with ⟨l, hl, hle⟩
        exact ⟨p, List.mem_cons_self _ _, pi, le_refl _, l, hl, hle⟩
      · rcases hmem2 e h2 with ⟨p', hp', j, hj, l, hl, hle⟩
        exact ⟨p', List.mem_cons_of_mem _ hp', j, le_trans (Nat.le_succ _) hj,
          l, hl, hle⟩

theorem primaryPages_title_some {hf : List String} {x : String} :
    ∀ {ps : List Page} {acc : List Entry} {st' : Option String × List Entry}
      {pi : Nat} {pwOpt : Option ℚ},
      primaryPages hf (some x, acc) pi pwOpt ps = .ok st' →
      st'.1 = some x := by
  intro ps
  induction ps with
  | nil =>
    intro acc st' pi pwOpt h
    simp only [primaryPages] at h
    cases h; rfl
  | cons p ps ih =>
    intro acc st' pi pwOpt h
    simp only [primaryPages] at h
    rcases hstep : primaryLines hf pi (pwOpt.getD p.width) (some x, acc)
      (textLines p) with e | stm
    · rw [hstep] at h; cases h
    · rw [hstep] at h
      rcases primaryLines_ok hstep with ⟨Δ, hout, -, htitle⟩
      have : stm.1 = some x := by
        rw [htitle]; split
        · rename_i hc; cases hc.2
        · rfl
      rcases stm with ⟨t1, o1⟩
      dsimp at this
      subst this
      exact ih h

theorem primaryPages_title_ge2 {hf : List String} :
    ∀ {ps : List Page} {st st' : Option String × List Entry} {pi : Nat}
      {pwOpt : Option ℚ}, 2 ≤ pi →
      primaryPages hf st pi pwOpt ps = .ok st' →
      st'.1 = st.1 := by
  intro ps
  induction ps with
  | nil =>
    intro st st' pi pwOpt _ h
    simp only [primaryPages] at h
    cases h; rfl
  | cons p ps ih =>
    intro st st' pi pwOpt hpi h
    simp only [primaryPages] at h
    rcases hstep : primaryLines hf pi (pwOpt.getD p.width) st (textLines p)
      with e | stm
    · rw [hstep] at h; cases h
    · rw [hstep] at h
      rcases primaryLines_ok hstep with ⟨Δ, hout, -, htitle⟩
      have h1 : stm.1 = st.1 := by
        rw [htitle]; split
        · rename_i hc; omega
        · rfl
      rw [ih (le_trans hpi (Nat.le_succ _)) h, h1]

theorem fallbackFold_shape {top : List ℚ} :
    ∀ {tuples : List (ℚ × Nat × String)} {t : Option String}
      {acc : List Entry},
      ∃ Δ, (fallbackFold top t acc tuples).2 = acc ++ Δ ∧
        ∀ e ∈ Δ, tupleEntry top tuples e := by
  intro tuples
  induction tuples with
  | nil => exact fun {t acc} => ⟨[], by simp [fallbackFold], by simp⟩
  | cons hd rest ih =>
    intro t acc
    rcases hd with ⟨s, pg, txt⟩
    by_cases hs : s ∈ top
    · rcases @ih (if pg = 1 ∧ t = none ∧ top.head? = some s then some txt
          else t) (acc ++ [⟨hLevel (idxOf s top + 1), txt, pg⟩]) with
        ⟨Δ, hout, hmem⟩
      refine ⟨⟨hLevel (idxOf s top + 1), txt, pg⟩ :: Δ, ?_, ?_⟩
      · simp only [fallbackFold, if_pos hs]
        simp [hout]
      · intro e he
        rcases List.mem_cons.mp he with rfl | he2
        · exact ⟨s, pg, txt, List.mem_cons_self _ _, hs, rfl⟩
        · rcases hmem e he2 with ⟨s', pg', txt', hmem', hs', he'⟩
          exact ⟨s', pg', txt', List.mem_cons_of_mem _ hmem', hs', he'⟩
    · rcases @ih t acc with ⟨Δ, hout, hmem⟩
      refine ⟨Δ, ?_, ?_⟩
      · simp only [fallbackFold, if_neg hs]
        exact hout
      · intro e he
        rcases hmem e he with ⟨s', pg', txt', hmem', hs', he'⟩
        exact ⟨s', pg', txt', List.mem_cons_of_mem _ hmem', hs', he'⟩

theorem fallbackFold_complete {top : List ℚ} :
    ∀ {tuples : List (ℚ × Nat × String)} {t : Option String}
      {acc : List Entry} {s : ℚ} {pg : Nat} {txt : String},
      (s, pg, txt) ∈ tuples → s ∈ top →
      (⟨hLevel (idxOf s top + 1), txt, pg⟩ : Entry) ∈
        (fallbackFold top t acc tuples).2 := by
  have hacc : ∀ (tuples : List (ℚ × Nat × String)) (t : Option String)
      (acc : List Entry) (e : Entry), e ∈ acc →
      e ∈ (fallbackFold top t acc tuples).2 := by
    intro tuples
    induction tuples with
    | nil => intro t acc e he; simpa [fallbackFold] using he
    | cons hd rest ih =>
      intro t acc e he
      rcases hd with ⟨s, pg, txt⟩
      by_cases hs : s ∈ top
      · simp only [fallbackFold, if_pos hs]
        exact ih _ _ e (List.mem_append.mpr (Or.inl he))
      · simp only [fallbackFold, if_neg hs]
        exact ih _ _ e he
  intro tuples
  induction tuples with
  | nil => intro t acc s pg txt hmem; cases hmem
  | cons hd rest ih =>
    intro t acc s pg txt hmem hs
    rcases List.mem_cons.mp hmem with heq | hmem2
    · subst heq
      simp only [fallbackFold, if_pos hs]
      exact hacc _ _ _ _ (List.mem_append.mpr (Or.inr (List.mem_singleton.mpr
        rfl)))
    · rcases hd with ⟨s', pg', txt'⟩
      by_cases hs' : s' ∈ top
      · simp only [fallbackFold, if_pos hs']
        exact ih hmem2 hs
      · simp only [fallbackFold, if_neg hs']
        exact ih hmem2 hs

theorem fallbackFold_title_some {top : List ℚ} {x : String} :
    ∀ {tuples : List (ℚ × Nat × String)} {acc : List Entry},
      (fallbackFold top (some x) acc tuples).1 = some x := by
  intro tuples
  induction tuples with
  | nil => intro acc; rfl
  | cons hd rest ih =>
    intro acc
    rcases hd with ⟨s, pg, txt⟩
    by_cases hs : s ∈ top
    · simp only [fallbackFold, if_pos hs]
      have : (if pg = 1 ∧ (some x : Option String) = none ∧
          top.head? = some s then some txt else some x) = some x := by
        simp
      rw [this]
      exact ih
    · simp only [fallbackFold, if_neg hs]
      exact ih

theorem fallbackFold_title_mem {top : List ℚ} {x : String} :
    ∀ {tuples : List (ℚ × Nat × String)} {acc : List Entry},
      (fallbackFold top none acc tuples).1 = some x →
      ∃ e ∈ (fallbackFold top none acc tuples).2, e.text = x := by
  intro tuples
  induction tuples with
  | nil => intro acc h; cases h
  | cons hd rest ih =>
    intro acc h
    rcases hd with ⟨s, pg, txt⟩
    by_cases hs : s ∈ top
    · simp only [fallbackFold, if_pos hs] at h ⊢
      by_cases hcl : pg = 1 ∧ top.head? = some s
      · rw [if_pos (show pg = 1 ∧ True ∧ top.head? = some s from
          ⟨hcl.1, trivial, hcl.2⟩)] at h ⊢
        have hx : x = txt := by
          have := @fallbackFold_title_some top txt rest
            (acc ++ [⟨hLevel (idxOf s top + 1), txt, pg⟩])
          rw [this] at h
          exact (Option.some_inj.mp h).symm
        subst hx
        rcases @fallbackFold_shape top rest (some x)
            (acc ++ [⟨hLevel (idxOf s top + 1), x, pg⟩]) with ⟨Δ, hout, -⟩
        refine ⟨⟨hLevel (idxOf s top + 1), x, pg⟩, ?_, rfl⟩
        rw [hout]
        exact List.mem_append.mpr (Or.inl (List.mem_append.mpr (Or.inr
          (List.mem_singleton.mpr rfl))))
      · have hcl2 : ¬(pg = 1 ∧ True ∧ top.head? = some s) := by
          intro hc
          exact hcl ⟨hc.1, hc.2.2⟩
        rw [if_neg hcl2] at h ⊢
        exact ih h
    · simp only [fallbackFold, if_neg hs] at h ⊢
      exact ih h

theorem mem_insDesc {key : String → Nat} {f x : String} :
    ∀ {l : List String}, x ∈ insDesc key f l ↔ x = f ∨ x ∈ l := by
  intro l
  induction l with
  | nil => simp [insDesc]
  | cons g gs ih =>
    by_cases hk : key g < key f
    · simp [insDesc, hk]
    · simp only [insDesc, if_neg hk, List.mem_cons, ih]
      tauto

theorem mem_sortDescStable {key : String → Nat} {x : String} :
    ∀ {l : List String}, x ∈ sortDescStable key l ↔ x ∈ l := by
  have haux : ∀ (l acc : List String),
      x ∈ l.foldl (fun a f => insDesc key f a) acc ↔ x ∈ acc ∨ x ∈ l := by
    intro l
    induction l with
    | nil => simp
    | cons f fs ih =>
      intro acc
      simp only [List.foldl_cons, ih, mem_insDesc, List.mem_cons]
      tauto
  intro l
  simpa [sortDescStable] using haux l []

theorem pairwise_insDesc {key : String → Nat} {f : String} :
    ∀ {l : List String},
      l.Pairwise (fun a b => key b ≤ key a) →
      (insDesc key f l).Pairwise (fun a b => key b ≤ key a) := by
  intro l
  induction l with
  | nil => intro _; simp [insDesc]
  | cons g gs ih =>
    intro h
    rcases List.pairwise_cons.mp h with ⟨hg, hgs⟩
    by_cases hk : key g < key f
    · rw [insDesc, if_pos hk]
      refine List.pairwise_cons.mpr ⟨?_, h⟩
      intro b hb
      rcases List.mem_cons.mp hb with rfl | hb2
      · exact le_of_lt hk
      · exact le_trans (hg b hb2) (le_of_lt hk)
    · rw [insDesc, if_neg hk]
      refine List.pairwise_cons.mpr ⟨?_, ih hgs⟩
      intro b hb
      rcases mem_insDesc.mp hb with rfl | hb2
      · exact le_of_not_lt hk
      · exact hg b hb2

theorem pairwise_sortDescStable {key : String → Nat} :
    ∀ {l : List String},
      (sortDescStable key l).Pairwise (fun a b => key b ≤ key a) := by
  have haux : ∀ (l acc : List String),
      acc.Pairwise (fun a b => key b ≤ key a) →
      (l.foldl (fun a f => insDesc key f a) acc).Pairwise
        (fun a b => key b ≤ key a) := by
    intro l
    induction l with
    | nil => intro acc h; simpa using h
    | cons f fs ih =>
      intro acc h
      exact ih _ (pairwise_insDesc h)
  intro l
  exact haux l [] (by simp)

theorem length_headingFonts {d : Doc} : (headingFonts d).length ≤ 3 :=
  List.length_take_le _ _

theorem length_topSizesOf {spans : List (ℚ × Nat × String)} :
    (topSizesOf spans).length ≤ 3 :=
  List.length_take_le _ _

theorem mem_headingFonts_bold {d : Doc} {f : String}
    (h : f ∈ headingFonts d) : f ∈ boldFonts d :=
  mem_sortDescStable.mp ((List.take_sublist _ _).mem h)

theorem mem_boldFonts_token {d : Doc} {f : String} (h : f ∈ boldFonts d) :
    hasWeightToken f = true := by
  rcases List.mem_map.mp h with ⟨pr, hpr, rfl⟩
  exact (List.mem_filter.mp hpr).2

theorem mem_pagesSpans {sp : Span} {l : Line} {p : Page} {ps : List Page}
    (hsp : sp ∈ l.spans) (hl : l ∈ textLines p) (hp : p ∈ ps) :
    sp ∈ pagesSpans ps := by
  simp only [pagesSpans, List.mem_flatMap]
  exact ⟨p, hp, l, hl, hsp⟩

theorem mem_allSpans_strip :
    ∀ {ps : List Page} {pi : Nat} {s : ℚ} {pg : Nat} {txt : String},
      (s, pg, txt) ∈ allSpans pi ps →
      ∃ sp ∈ pagesSpans ps, txt = pyStrip (sp.text.getD "") := by
  intro ps
  induction ps with
  | nil => intro pi s pg txt h; cases h
  | cons p ps ih =>
    intro pi s pg txt h
    rcases List.mem_append.mp h with h1 | h2
    · simp only [spanTuples, List.mem_flatMap, List.mem_filterMap] at h1
      rcases h1 with ⟨l, hl, sp, hsp, hspeq⟩
      by_cases hempty : pyStrip (sp.text.getD "") = ""
      · rw [if_pos hempty] at hspeq
        cases hspeq
      · rw [if_neg hempty] at hspeq
        refine ⟨sp, mem_pagesSpans hsp hl (List.mem_cons_self _ _), ?_⟩
        cases hspeq
        rfl
    · rcases ih h2 with ⟨sp, hmem, htxt⟩
      refine ⟨sp, ?_, htxt⟩
      simp only [pagesSpans, List.mem_flatMap] at hmem ⊢
      rcases hmem with ⟨p', hp', rest⟩
      exact ⟨p', List.mem_cons_of_mem _ hp', rest⟩

theorem parse_outline_primary_empty {d : Doc} {pt : Option String}
    (h : primaryResult d = .ok (pt, [])) :
    parse_outline d = .ok ((fallbackPass d pt).1.getD (defaultName d.name),
      (fallbackPass d pt).2) := by
  rw [parse_outline, h]
  simp

theorem parse_outline_primary_nonempty {d : Doc} {pt : Option String}
    {po : List Entry} (hne : po ≠ []) (h : primaryResult d = .ok (pt, po)) :
    parse_outline d = .ok (pt.getD (defaultName d.name), po) := by
  rw [parse_outline, h]
  simp [hne]

theorem primaryLine_skip {hf : List String} {pi : Nat} {pw : ℚ}
    {st : Option String × List Entry} {l : Line}
    (h : ∀ sp ∈ l.spans, pyStrip (sp.text.getD "") = "") :
    primaryLine hf pi pw st l = .ok st := by
  rcases hsp : l.spans with _ | ⟨sp, _ | ⟨sp2, rest⟩⟩
  · simp [primaryLine, hsp]
  · have hsp1 : pyStrip (sp.text.getD "") = "" :=
      h sp (by rw [hsp]; exact List.mem_cons_self _ _)
    simp [primaryLine, hsp, hsp1]
  · simp [primaryLine, hsp]

theorem primaryLines_skip {hf : List String} {pi : Nat} {pw : ℚ} :
    ∀ {ls : List Line} {st : Option String × List Entry},
      (∀ l ∈ ls, ∀ sp ∈ l.spans, pyStrip (sp.text.getD "") = "") →
      primaryLines hf pi pw st ls = .ok st := by
  intro ls
  induction ls with
  | nil => intro st _; rfl
  | cons l ls ih =>
    intro st h
    have h1 := @primaryLine_skip hf pi pw st l (h l (List.mem_cons_self _ _))
    simp only [primaryLines, h1]
    exact ih fun l' hl' => h l' (List.mem_cons_of_mem _ hl')

theorem primaryPages_skip {hf : List String} :
    ∀ {ps : List Page} {st : Option String × List Entry} {pi : Nat}
      {pwOpt : Option ℚ},
      (∀ p ∈ ps, ∀ l ∈ textLines p, ∀ sp ∈ l.spans,
        pyStrip (sp.text.getD "") = "") →
      primaryPages hf st pi pwOpt ps = .ok st := by
  intro ps
  induction ps with
  | nil => intro st pi pwOpt _; rfl
  | cons p ps ih =>
    intro st pi pwOpt h
    have h1 := @primaryLines_skip hf pi (pwOpt.getD p.width) (textLines p)
      st (h p (List.mem_cons_self _ _))
    simp only [primaryPages, h1]
    exact ih fun p' hp' => h p' (List.mem_cons_of_mem _ hp')

theorem allSpans_nil :
    ∀ {ps : List Page} {pi : Nat},
      (∀ sp ∈ pagesSpans ps, pyStrip (sp.text.getD "") = "") →
      allSpans pi ps = [] := by
  intro ps
  induction ps with
  | nil => intro pi _; rfl
  | cons p ps ih =>
    intro pi h
    have h1 : spanTuples pi p = [] := by
      rw [List.eq_nil_iff_forall_not_mem]
      intro x hx
      simp only [spanTuples, List.mem_flatMap, List.mem_filterMap] at hx
      rcases hx with ⟨l, hl, sp, hsp, hspeq⟩
      rw [if_pos (h sp (mem_pagesSpans hsp hl (List.mem_cons_self _ _)))]
        at hspeq
      cases hspeq
    rw [allSpans, h1, List.nil_append]
    exact ih fun sp hsp => h sp (by
      simp only [pagesSpans, List.mem_flatMap] at hsp ⊢
      rcases hsp with ⟨p', hp', rest⟩
      exact ⟨p', List.mem_cons_of_mem _ hp', rest⟩)

theorem primaryLine_total {hf : List String} {pi : Nat} {pw : ℚ}
    {st : Option String × List Entry} {l : Line}
    (h : ∀ sp, l.spans = [sp] → pyStrip (sp.text.getD "") ≠ "" →
      (sp.font.getD "") ∈ hf → sp.bbox ≠ none) :
    ∃ st', primaryLine hf pi pw st l = .ok st' := by
  rcases hsp : l.spans with _ | ⟨sp, _ | ⟨sp2, rest⟩⟩
  · exact ⟨st, by simp [primaryLine, hsp]⟩
  · by_cases hcond : pyStrip (sp.text.getD "") = "" ∨ (sp.font.getD "") ∉ hf
    · exact ⟨st, by simp only [primaryLine, hsp]; rw [if_pos hcond]⟩
    · push_neg at hcond
      have hbb := h sp hsp hcond.1 hcond.2
      rcases hbbs : sp.bbox with _ | ⟨x0, y0, x1, y1⟩
      · exact absurd hbbs hbb
      · by_cases hsz : x1 - x0 < pw * (1 / 2) ∨
            100 < (pyStrip (sp.text.getD "")).length
        · refine ⟨st, ?_⟩
          simp only [primaryLine, hsp, hbbs]
          rw [if_neg (by push_neg; exact hcond), if_pos hsz]
        · refine ⟨(if pi = 1 ∧ st.1 = none then some (pyStrip (sp.text.getD ""))
            else st.1, st.2 ++ [⟨hLevel (idxOf (sp.font.getD "") hf + 1),
              pyStrip (sp.text.getD ""), pi⟩]), ?_⟩
          simp only [primaryLine, hsp, hbbs]
          rw [if_neg (by push_neg; exact hcond), if_neg hsz]
  · exact ⟨st, by simp [primaryLine, hsp]⟩

theorem primaryLines_total {hf : List String} {pi : Nat} {pw : ℚ} :
    ∀ {ls : List Line} {st : Option String × List Entry},
      (∀ l ∈ ls, ∀ sp, l.spans = [sp] → pyStrip (sp.text.getD "") ≠ "" →
        (sp.font.getD "") ∈ hf → sp.bbox ≠ none) →
      ∃ st', primaryLines hf pi pw st ls = .ok st' := by
  intro ls
  induction ls with
  | nil => intro st _; exact ⟨st, rfl⟩
  | cons l ls ih =>
    intro st h
    rcases @primaryLine_total hf pi pw st l
        (h l (List.mem_cons_self _ _)) with ⟨st1, hst1⟩
    rcases @ih st1 (fun l' hl' => h l' (List.mem_cons_of_mem _ hl'))
      with ⟨st2, hst2⟩
    exact ⟨st2, by simp only [primaryLines, hst1]; exact hst2⟩

theorem primaryPages_total {hf : List String} :
    ∀ {ps : List Page} {st : Option String × List Entry} {pi : Nat}
      {pwOpt : Option ℚ},
      (∀ p ∈ ps, ∀ l ∈ textLines p, ∀ sp, l.spans = [sp] →
        pyStrip (sp.text.getD "") ≠ "" → (sp.font.getD "") ∈ hf →
        sp.bbox ≠ none) →
      ∃ st', primaryPages hf st pi pwOpt ps = .ok st' := by
  intro ps
  induction ps with
  | nil => intro st pi pwOpt _; exact ⟨st, rfl⟩
  | cons p ps ih =>
    intro st pi pwOpt h
    rcases @primaryLines_total hf pi (pwOpt.getD p.width) (textLines p) st
        (h p (List.mem_cons_self _ _)) with ⟨st1, hst1⟩
    rcases @ih st1 (pi + 1) (some (pwOpt.getD p.width))
        (fun p' hp' => h p' (List.mem_cons_of_mem _ hp'))
      with ⟨st2, hst2⟩
    exact ⟨st2, by simp only [primaryPages, hst1]; exact hst2⟩

theorem textLines_setWidth {w : ℚ} {p : Page} :
    textLines (setWidth w p) = textLines p := rfl

theorem spanTuples_setWidth {w : ℚ} {pi : Nat} {p : Page} :
    spanTuples pi (setWidth w p) = spanTuples pi p := rfl

theorem pagesSpans_map_setWidth {w : ℚ} :
    ∀ {ps : List Page}, pagesSpans (ps.map (setWidth w)) = pagesSpans ps := by
  intro ps
  induction ps with
  | nil => rfl
  | cons p ps ih =>
    simp only [List.map_cons, pagesSpans, List.flatMap_cons] at ih ⊢
    rw [ih, textLines_setWidth]

theorem allSpans_map_setWidth {w : ℚ} :
    ∀ {ps : List Page} {pi : Nat},
      allSpans pi (ps.map (setWidth w)) = allSpans pi ps := by
  intro ps
  induction ps with
  | nil => intro pi; rfl
  | cons p ps ih =>
    intro pi
    simp only [List.map_cons, allSpans, spanTuples_setWidth, ih]

theorem primaryPages_map_setWidth {hf : List String} {w w' : ℚ} :
    ∀ {ps : List Page} {st : Option String × List Entry} {pi : Nat},
      primaryPages hf st pi (some w) (ps.map (setWidth w')) =
        primaryPages hf st pi (some w) ps := by
  intro ps
  induction ps with
  | nil => intro st pi; rfl
  | cons p ps ih =>
    intro st pi
    simp only [List.map_cons, primaryPages, Option.getD_some, textLines_setWidth]
    cases primaryLines hf pi w st (textLines p) with
    | error e => rfl
    | ok st' => exact ih

theorem fontUsage_normWidths {d : Doc} :
    fontUsage (normWidths d) = fontUsage d := by
  rcases hd : d.pages with _ | ⟨p, ps⟩
  · rw [show normWidths d = d from by simp [normWidths, hd]]
  · have hn : normWidths d = ⟨d.name, p :: ps.map (setWidth p.width)⟩ := by
      simp [normWidths, hd]
    rw [fontUsage, fontUsage, docSpans, docSpans, hn, hd]
    simp only [pagesSpans, List.flatMap_cons]
    rw [show (ps.map (setWidth p.width)).flatMap
        (fun p => (textLines p).flatMap (fun l => l.spans)) =
        ps.flatMap (fun p => (textLines p).flatMap (fun l => l.spans)) from
      pagesSpans_map_setWidth]

theorem headingFonts_normWidths {d : Doc} :
    headingFonts (normWidths d) = headingFonts d := by
  rw [headingFonts, headingFonts, boldFonts, boldFonts, fontUsage_normWidths]

theorem primaryResult_normWidths {d : Doc} :
    primaryResult (normWidths d) = primaryResult d := by
  rcases hd : d.pages with _ | ⟨p, ps⟩
  · rw [show normWidths d = d from by simp [normWidths, hd]]
  · have hn : normWidths d = ⟨d.name, p :: ps.map (setWidth p.width)⟩ := by
      simp [normWidths, hd]
    rw [primaryResult, primaryResult, headingFonts_normWidths, hn, hd]
    simp only [primaryPages, Option.getD_none]
    cases primaryLines (headingFonts d) 1 p.width (none, []) (textLines p) with
    | error e => rfl
    | ok st' => exact primaryPages_map_setWidth

theorem fallbackPass_normWidths {d : Doc} {t0 : Option String} :
    fallbackPass (normWidths d) t0 = fallbackPass d t0 := by
  rcases hd : d.pages with _ | ⟨p, ps⟩
  · rw [show normWidths d = d from by simp [normWidths, hd]]
  · have hn : normWidths d = ⟨d.name, p :: ps.map (setWidth p.width)⟩ := by
      simp [normWidths, hd]
    rw [fallbackPass, fallbackPass, hn, hd]
    simp only [allSpans, allSpans_map_setWidth]

theorem name_normWidths {d : Doc} : (normWidths d).name = d.name := by
  rcases hd : d.pages with _ | ⟨p, ps⟩
  · rw [show normWidths d = d from by simp [normWidths, hd]]
  · simp [normWidths, hd]

/-! ## Claims -/

/-- C6. Font-mode signal selection counts spans per font name across all
lines (multi-span lines included), keeps exactly the font names whose
lowercased form contains one of the tokens bold/black/heavy/medium, and ranks
the survivors by descending span count, at most 3, ties first-seen: every
selected font is a weight-token font, at most 3 are selected, their counts
descend; on span counts `{"Arial-Bold": 5, "Arial": 50, "Times-Black": 3}`
(one multi-span line) the selection is `["Arial-Bold", "Times-Black"]`, and
on the tie `{"X-Bold": 2, "Y-Bold": 2}` the first-seen font ranks first. -/
theorem C6_thm :
    (∀ d : Doc,
      (∀ f ∈ headingFonts d, f ∈ boldFonts d ∧ hasWeightToken f = true) ∧
      (headingFonts d).length ≤ 3 ∧
      (headingFonts d).Pairwise (fun f g =>
        usageCount (fontUsage d) g ≤ usageCount (fontUsage d) f)) ∧
    headingFonts c6doc = ["Arial-Bold", "Times-Black"] ∧
    headingFonts c6tie = ["X-Bold", "Y-Bold"] := by
  refine ⟨fun d => ⟨fun f hf => ⟨mem_headingFonts_bold hf,
      mem_boldFonts_token (mem_headingFonts_bold hf)⟩,
      length_headingFonts,
      List.Pairwise.sublist (List.take_sublist _ _) pairwise_sortDescStable⟩,
    ?_, ?_⟩
  · decide
  · decide

/-- Witness for `C6_thm`: its universal part applied to `c6doc` and the
selected font `Arial-Bold`. -/
theorem C6_thm_witness :
    ("Arial-Bold" ∈ boldFonts c6doc ∧ hasWeightToken "Arial-Bold" = true) ∧
    (headingFonts c6doc).length ≤ 3 := by
  refine ⟨(C6_thm.1 c6doc).1 "Arial-Bold" ?_, (C6_thm.1 c6doc).2.1⟩
  rw [C6_thm.2.1]
  exact List.mem_cons_self _ _

/-- C7. Every produced outline entry has level H1, H2 or H3 — never
deeper — in both the primary font pass and the size fallback. -/
theorem C7_thm {d : Doc} {t : String} {o : List Entry}
    (h : parse_outline d = .ok (t, o)) :
    ∀ e ∈ o, e.level = "H1" ∨ e.level = "H2" ∨ e.level = "H3" := by
  intro e he
  rcases hpr : primaryResult d with er | ⟨pt, po⟩
  · rw [parse_outline, hpr] at h
    cases h
  · by_cases hpo : po = []
    · subst hpo
      rw [parse_outline_primary_empty hpr] at h
      cases h
      by_cases hsp : allSpans 1 d.pages = []
      · simp only [fallbackPass] at he
        rw [if_pos hsp] at he
        cases he
      · simp only [fallbackPass] at he
        rw [if_neg hsp] at he
        rcases @fallbackFold_shape (topSizesOf (allSpans 1 d.pages))
            (allSpans 1 d.pages) pt [] with
          ⟨Δ, hout, hmem⟩
        rw [hout, List.nil_append] at he
        rcases hmem e he with ⟨s, pg, txt, -, hs, rfl⟩
        exact hLevel_cases (lt_of_lt_of_le (idxOf_lt_length hs)
          length_topSizesOf)
    · rw [parse_outline_primary_nonempty hpo hpr] at h
      cases h
      rcases primaryPages_ok hpr with ⟨Δ, hout, hmem⟩
      have hΔ : o = Δ := by simpa using hout
      subst hΔ
      rcases hmem e he with ⟨p, -, j, -, l, -, sp, -, -, -, hfont, hlvl⟩
      rw [hlvl]
      exact hLevel_cases (lt_of_lt_of_le (idxOf_lt_length hfont)
        length_headingFonts)

/-- Witness for `C7_thm`: the entry produced on `c5doc`. -/
theorem C7_thm_witness :
    (⟨"H2", "SubHead", 1⟩ : Entry).level = "H1" ∨
    (⟨"H2", "SubHead", 1⟩ : Entry).level = "H2" ∨
    (⟨"H2", "SubHead", 1⟩ : Entry).level = "H3" := by
  have h : parse_outline c5doc = .ok ("SubHead", [⟨"H2", "SubHead", 1⟩]) := by
    norm_num +decide [parse_outline, primaryResult, primaryPages, primaryLines,
      primaryLine, headingFonts, sortDescStable, insDesc, boldFonts, fontUsage,
      docSpans, pagesSpans, textLines, bump, usageCount, hasWeightToken,
      strHas, subAt, lowerStr, weightTokens, pyStrip, idxOf, hLevel, c5doc]
  exact C7_thm h _ (List.mem_singleton.mpr rfl)

/-- C8 counterexample. The core's result is *not* always well-formed: on
`c8errdoc` — a heading-font single-span line with non-empty text whose
bounding box is missing — outline extraction aborts with an error instead of
returning a title and an outline, refuting the claim's general
never-an-error clause. -/
theorem C8_cex : parse_outline c8errdoc = .error "bbox" := by
  norm_num +decide [parse_outline, primaryResult, primaryPages, primaryLines,
    primaryLine, headingFonts, sortDescStable, insDesc, boldFonts, fontUsage,
    docSpans, pagesSpans, textLines, bump, usageCount, hasWeightToken, strHas,
    subAt, lowerStr, weightTokens, pyStrip, idxOf, hLevel, c8errdoc]

/-- C8 (amended). A document whose every span is empty after trimming
produces an empty outline together with the fallback (base-name) title —
the absence of any heading signal is not an error; the stronger clause that
the result is *always* well-formed fails (see the counterexample), so
well-formedness here is conditional on the document, not universal. -/
theorem C8_thm {d : Doc}
    (h : ∀ sp ∈ docSpans d, pyStrip (sp.text.getD "") = "") :
    parse_outline d = .ok (defaultName d.name, []) := by
  have hp : primaryResult d = .ok (none, []) :=
    primaryPages_skip fun p hp l hl sp hsp => h sp (mem_pagesSpans hsp hl hp)
  rw [parse_outline_primary_empty hp]
  have hs : allSpans 1 d.pages = [] := allSpans_nil h
  simp only [fallbackPass]
  rw [if_pos hs]
  rfl

/-- Witness for `C8_thm`: a document whose spans are whitespace-only or
missing their text. -/
theorem C8_thm_witness : parse_outline c8doc = .ok ("blank", []) := by
  have h := C8_thm (d := c8doc) (by decide)
  rw [show defaultName c8doc.name = "blank" from by decide] at h
  exact h

/-- C10. The 50%-width filter always compares against the width of the
first page: replacing every later page's width by page 1's width never
changes the result; concretely, on `c10doc` (page 1 width 100, page 2 width
1000) the page-2 span of bounding-box width 60 is accepted although 60 is
well below half of page 2's own width. -/
theorem C10_thm :
    (∀ d : Doc, parse_outline (normWidths d) = parse_outline d) ∧
    parse_outline c10doc = .ok ("w", [⟨"H1", "Wide", 2⟩]) ∧
    ¬((60 : ℚ) - 0 < 100 * (1 / 2)) ∧ ((60 : ℚ) - 0 < 1000 * (1 / 2)) := by
  refine ⟨?_, ?_, by norm_num, by norm_num⟩
  · intro d
    rw [parse_outline, parse_outline, primaryResult_normWidths,
      name_normWidths]
    cases primaryResult d with
    | error e => rfl
    | ok r =>
      rcases r with ⟨t, outl⟩
      by_cases ho : outl = []
      · simp [ho, fallbackPass_normWidths]
      · simp [ho]
  · norm_num +decide [parse_outline, primaryResult, primaryPages,
      primaryLines, primaryLine, headingFonts, sortDescStable, insDesc,
      boldFonts, fontUsage, docSpans, pagesSpans, textLines, bump, usageCount,
      hasWeightToken, strHas, subAt, lowerStr, weightTokens, pyStrip, idxOf,
      hLevel, defaultName, basename, splitextRoot, c10doc]

/-- C1 counterexample. On `c1doc` the spec's body size (maximal aggregate
word count) is 12.0, yet the fallback's buckets are the top 3 distinct sizes
`[24, 18, 12]` — the body size is *not* removed — and the size-12 span is
emitted as an H3 outline entry, so the body size maps to a heading level. -/
theorem C1_cex :
    specBodySize (allSpans 1 c1doc.pages) = some 12 ∧
    topSizesOf (allSpans 1 c1doc.pages) = [24, 18, 12] ∧
    parse_outline c1doc = .ok ("Big Title",
      [⟨"H1", "Big Title", 1⟩, ⟨"H2", "Mid Head", 1⟩,
       ⟨"H3", "a b c d e f g h i j", 1⟩]) := by
  refine ⟨?_, ?_, ?_⟩
  · norm_num +decide [specBodySize, specBodySize.go, specSizeWords,
      specSizeWords.bumpQ, specWordCount, allSpans, spanTuples, textLines,
      pyStrip, round1, round_eq, List.filterMap_cons, c1doc]
  · norm_num +decide [topSizesOf, sortDescQ, insDescQ, distinctQ, allSpans,
      spanTuples, textLines, pyStrip, round1, round_eq, List.filterMap_cons,
      c1doc]
  · norm_num +decide [parse_outline, primaryResult, primaryPages,
      primaryLines, primaryLine, headingFonts, sortDescStable, insDesc,
      boldFonts, fontUsage, docSpans, pagesSpans, textLines, bump, usageCount,
      hasWeightToken, strHas, subAt, lowerStr, weightTokens, pyStrip, idxOf,
      hLevel, fallbackPass, fallbackFold, topSizesOf, sortDescQ, insDescQ,
      distinctQ, allSpans, spanTuples, round1, round_eq, defaultName,
      basename, splitextRoot, List.filterMap_cons, c1doc]

/-- C1 (amended). The size fallback removes no body size: its signal
buckets are the top 3 distinct rounded sizes by descending value over *all*
spans, and every span whose size is among them — the body size included when
it ranks in the top 3 — yields an outline entry at that size's rank. -/
theorem C1_thm {d : Doc} {t : String} {o : List Entry}
    (hp : primaryResult d = .ok (none, []))
    (h : parse_outline d = .ok (t, o)) :
    ∀ s pg txt, (s, pg, txt) ∈ allSpans 1 d.pages →
      s ∈ topSizesOf (allSpans 1 d.pages) →
      (⟨hLevel (idxOf s (topSizesOf (allSpans 1 d.pages)) + 1), txt, pg⟩ :
        Entry) ∈ o := by
  intro s pg txt hmem htop
  rw [parse_outline_primary_empty hp] at h
  have hne : allSpans 1 d.pages ≠ [] := by
    intro hnil
    rw [hnil] at hmem
    cases hmem
  have hfb : fallbackPass d none =
      fallbackFold (topSizesOf (allSpans 1 d.pages)) none []
        (allSpans 1 d.pages) := by
    simp only [fallbackPass]
    rw [if_neg hne]
  rw [hfb] at h
  cases h
  exact fallbackFold_complete hmem htop

/-- Witness for `C1_thm`: on `c1doc` the size-12 (body) span's H3 entry is in
the outline. -/
theorem C1_thm_witness :
    (⟨hLevel (idxOf (12 : ℚ) (topSizesOf (allSpans 1 c1doc.pages)) + 1),
      "a b c d e f g h i j", 1⟩ : Entry) ∈
      [(⟨"H1", "Big Title", 1⟩ : Entry), ⟨"H2", "Mid Head", 1⟩,
       ⟨"H3", "a b c d e f g h i j", 1⟩] := by
  have hp : primaryResult c1doc = .ok (none, []) := by
    norm_num +decide [primaryResult, primaryPages, primaryLines, primaryLine,
      headingFonts, sortDescStable, insDesc, boldFonts, fontUsage, docSpans,
      pagesSpans, textLines, bump, usageCount, hasWeightToken, strHas, subAt,
      lowerStr, weightTokens, pyStrip, c1doc]
  have h : parse_outline c1doc = .ok ("Big Title",
      [⟨"H1", "Big Title", 1⟩, ⟨"H2", "Mid Head", 1⟩,
       ⟨"H3", "a b c d e f g h i j", 1⟩]) := by
    norm_num +decide [parse_outline, primaryResult, primaryPages,
      primaryLines, primaryLine, headingFonts, sortDescStable, insDesc,
      boldFonts, fontUsage, docSpans, pagesSpans, textLines, bump, usageCount,
      hasWeightToken, strHas, subAt, lowerStr, weightTokens, pyStrip, idxOf,
      hLevel, fallbackPass, fallbackFold, topSizesOf, sortDescQ, insDescQ,
      distinctQ, allSpans, spanTuples, round1, round_eq, defaultName,
      basename, splitextRoot, List.filterMap_cons, c1doc]
  refine C1_thm hp h 12 1 "a b c d e f g h i j" ?_ ?_
  · norm_num +decide [allSpans, spanTuples, textLines, pyStrip, round1,
      round_eq, List.filterMap_cons, c1doc]
  · norm_num +decide [topSizesOf, sortDescQ, insDescQ, distinctQ, allSpans,
      spanTuples, textLines, pyStrip, round1, round_eq, List.filterMap_cons,
      c1doc]

/-- C2 counterexample. The accepted heading `"—Introduction—"` is stored
with its leading and trailing em-dashes intact (and becomes the title as
stored), not as `"Introduction"`: no punctuation is stripped. -/
theorem C2_cex :
    parse_outline c2doc = .ok ("—Introduction—",
      [⟨"H1", "—Introduction—", 1⟩]) ∧
    "—Introduction—" ≠ "Introduction" := by
  refine ⟨?_, by decide⟩
  norm_num +decide [parse_outline, primaryResult, primaryPages, primaryLines,
    primaryLine, headingFonts, sortDescStable, insDesc, boldFonts, fontUsage,
    docSpans, pagesSpans, textLines, bump, usageCount, hasWeightToken, strHas,
    subAt, lowerStr, weightTokens, pyStrip, idxOf, hLevel, c2doc]

/-- C2 (amended). Every outline entry's stored text is some document
span's text with only leading/trailing *whitespace* stripped; punctuation —
leading, trailing, or internal — is preserved verbatim. -/
theorem C2_thm {d : Doc} {t : String} {o : List Entry}
    (h : parse_outline d = .ok (t, o)) :
    ∀ e ∈ o, ∃ sp ∈ docSpans d, e.text = pyStrip (sp.text.getD "") := by
  intro e he
  rcases hpr : primaryResult d with er | ⟨pt, po⟩
  · rw [parse_outline, hpr] at h
    cases h
  · by_cases hpo : po = []
    · subst hpo
      rw [parse_outline_primary_empty hpr] at h
      cases h
      by_cases hsp : allSpans 1 d.pages = []
      · simp only [fallbackPass] at he
        rw [if_pos hsp] at he
        cases he
      · simp only [fallbackPass] at he
        rw [if_neg hsp] at he
        rcases @fallbackFold_shape (topSizesOf (allSpans 1 d.pages))
            (allSpans 1 d.pages) pt [] with
          ⟨Δ, hout, hmem⟩
        rw [hout, List.nil_append] at he
        rcases hmem e he with ⟨s, pg, txt, htup, -, rfl⟩
        rcases mem_allSpans_strip htup with ⟨sp, hspmem, htxt⟩
        exact ⟨sp, hspmem, htxt⟩
    · rw [parse_outline_primary_nonempty hpo hpr] at h
      cases h
      rcases primaryPages_ok hpr with ⟨Δ, hout, hmem⟩
      have hΔ : o = Δ := by simpa using hout
      subst hΔ
      rcases hmem e he with ⟨p, hp, j, -, l, hl, sp, hspans, htext, -⟩
      exact ⟨sp, mem_pagesSpans (by rw [hspans]; exact List.mem_cons_self _ _)
        hl hp, htext⟩

/-- Witness for `C2_thm`: the em-dash entry of `c2doc` comes from a span
whose stripped text it equals. -/
theorem C2_thm_witness :
    ∃ sp ∈ docSpans c2doc, (⟨"H1", "—Introduction—", 1⟩ : Entry).text =
      pyStrip (sp.text.getD "") := by
  have h : parse_outline c2doc = .ok ("—Introduction—",
      [⟨"H1", "—Introduction—", 1⟩]) := by
    norm_num +decide [parse_outline, primaryResult, primaryPages,
      primaryLines, primaryLine, headingFonts, sortDescStable, insDesc,
      boldFonts, fontUsage, docSpans, pagesSpans, textLines, bump, usageCount,
      hasWeightToken, strHas, subAt, lowerStr, weightTokens, pyStrip, idxOf,
      hLevel, c2doc]
  exact C2_thm h _ (List.mem_singleton.mpr rfl)

/-- C3 counterexample. On a document with no page-1 heading spans and a
metadata title that trims to `"Meta"`, the emitted title is the base name
`"report"`, not the metadata title: the metadata title field is never
consulted before the base-name fallback. -/
theorem C3_cex :
    c3meta.title = some "  Meta  " ∧ pyStrip "  Meta  " = "Meta" ∧
    processTitle c3doc c3meta = .ok "report" ∧
    defaultName c3doc.name = "report" ∧ "report" ≠ "Meta" := by
  refine ⟨rfl, by decide, ?_, by decide, by decide⟩
  norm_num +decide [processTitle, parse_outline, primaryResult, primaryPages,
    headingFonts, sortDescStable, boldFonts, fontUsage, docSpans, pagesSpans,
    fallbackPass, allSpans, defaultName, basename, splitextRoot, c3doc]

/-- C3 (amended). When neither the primary pass nor the size fallback
derives a title, the emitted title is exactly the file's base name without
extension (the only fallback — document metadata plays no part), and
extraction still returns a title. -/
theorem C3_thm {d : Doc} (hp : primaryResult d = .ok (none, []))
    (hf : (fallbackPass d none).1 = none) :
    parse_outline d = .ok (defaultName d.name, (fallbackPass d none).2) := by
  rw [parse_outline_primary_empty hp, hf]
  rfl

/-- Witness for `C3_thm` on the pageless document `c3doc`. -/
theorem C3_thm_witness : parse_outline c3doc = .ok ("report", []) := by
  have h := C3_thm (d := c3doc) rfl rfl
  rw [h]
  rfl

/-- C4 counterexample. On `c1doc` the fallback claims the page-1 span
`"Big Title"` as the title *and* keeps it as the H1 outline entry: the
title-claimed page-1 text is duplicated inside the outline. -/
theorem C4_cex :
    parse_outline c1doc = .ok ("Big Title",
      [⟨"H1", "Big Title", 1⟩, ⟨"H2", "Mid Head", 1⟩,
       ⟨"H3", "a b c d e f g h i j", 1⟩]) ∧
    (⟨"H1", "Big Title", 1⟩ : Entry) ∈
      [(⟨"H1", "Big Title", 1⟩ : Entry), ⟨"H2", "Mid Head", 1⟩,
       ⟨"H3", "a b c d e f g h i j", 1⟩] ∧
    (⟨"H1", "Big Title", 1⟩ : Entry).text = "Big Title" := by
  refine ⟨?_, List.mem_cons_self _ _, rfl⟩
  norm_num +decide [parse_outline, primaryResult, primaryPages, primaryLines,
    primaryLine, headingFonts, sortDescStable, insDesc, boldFonts, fontUsage,
    docSpans, pagesSpans, textLines, bump, usageCount, hasWeightToken, strHas,
    subAt, lowerStr, weightTokens, pyStrip, idxOf, hLevel, fallbackPass,
    fallbackFold, topSizesOf, sortDescQ, insDescQ, distinctQ, allSpans,
    spanTuples, round1, round_eq, defaultName, basename, splitextRoot,
    List.filterMap_cons, c1doc]

/-- C4 (amended). The size fallback does not reject title-claimed spans:
whenever it derives the title (the result title differs from the base-name
default), some outline entry carries exactly the title text — the title is
duplicated in the outline rather than excluded from it. -/
theorem C4_thm {d : Doc} {t : String} {o : List Entry}
    (hp : primaryResult d = .ok (none, []))
    (h : parse_outline d = .ok (t, o))
    (hne : t ≠ defaultName d.name) :
    ∃ e ∈ o, e.text = t := by
  rw [parse_outline_primary_empty hp] at h
  by_cases hsp : allSpans 1 d.pages = []
  · exfalso
    apply hne
    have hfb : fallbackPass d none = (none, []) := by
      simp only [fallbackPass]
      rw [if_pos hsp]
    rw [hfb] at h
    cases h
    rfl
  · have hfb : fallbackPass d none =
        fallbackFold (topSizesOf (allSpans 1 d.pages)) none []
          (allSpans 1 d.pages) := by
      simp only [fallbackPass]
      rw [if_neg hsp]
    rw [hfb] at h
    cases h
    rcases hft : (fallbackFold (topSizesOf (allSpans 1 d.pages)) none []
        (allSpans 1 d.pages)).1 with _ | x
    · exact absurd (by rw [hft]; rfl) hne
    · rcases fallbackFold_title_mem hft with ⟨e, he, htext⟩
      exact ⟨e, he, by simp [htext]⟩

/-- Witness for `C4_thm`: on `c1doc` the derived title `"Big Title"` is the
text of an outline entry. -/
theorem C4_thm_witness :
    ∃ e ∈ [(⟨"H1", "Big Title", 1⟩ : Entry), ⟨"H2", "Mid Head", 1⟩,
       ⟨"H3", "a b c d e f g h i j", 1⟩], Entry.text e = "Big Title" := by
  have hp : primaryResult c1doc = .ok (none, []) := by
    norm_num +decide [primaryResult, primaryPages, primaryLines, primaryLine,
      headingFonts, sortDescStable, insDesc, boldFonts, fontUsage, docSpans,
      pagesSpans, textLines, bump, usageCount, hasWeightToken, strHas, subAt,
      lowerStr, weightTokens, pyStrip, c1doc]
  have h : parse_outline c1doc = .ok ("Big Title",
      [⟨"H1", "Big Title", 1⟩, ⟨"H2", "Mid Head", 1⟩,
       ⟨"H3", "a b c d e f g h i j", 1⟩]) := by
    norm_num +decide [parse_outline, primaryResult, primaryPages,
      primaryLines, primaryLine, headingFonts, sortDescStable, insDesc,
      boldFonts, fontUsage, docSpans, pagesSpans, textLines, bump, usageCount,
      hasWeightToken, strHas, subAt, lowerStr, weightTokens, pyStrip, idxOf,
      hLevel, fallbackPass, fallbackFold, topSizesOf, sortDescQ, insDescQ,
      distinctQ, allSpans, spanTuples, round1, round_eq, defaultName,
      basename, splitextRoot, List.filterMap_cons, c1doc]
  exact C4_thm hp h (by decide)

/-- C5 counterexample. On `c5doc` the only accepted page-1 entry has rank
1 (level H2) — there is no H1 entry at all — and its text still becomes the
document title: the title is not restricted to rank-0 entries. -/
theorem C5_cex :
    headingFonts c5doc = ["A-Bold", "B-Bold"] ∧
    parse_outline c5doc = .ok ("SubHead", [⟨"H2", "SubHead", 1⟩]) ∧
    (⟨"H2", "SubHead", 1⟩ : Entry).level ≠ "H1" := by
  refine ⟨by decide, ?_, by decide⟩
  norm_num +decide [parse_outline, primaryResult, primaryPages, primaryLines,
    primaryLine, headingFonts, sortDescStable, insDesc, boldFonts, fontUsage,
    docSpans, pagesSpans, textLines, bump, usageCount, hasWeightToken, strHas,
    subAt, lowerStr, weightTokens, pyStrip, idxOf, hLevel, c5doc]

/-- C5 (amended). In the font-mode primary pass the title is the text of
the *first* accepted page-1 entry of *any* rank (H1, H2 or H3 alike), not
only of a rank-0 entry. -/
theorem C5_thm {d : Doc} {t : Option String} {out : List Entry}
    (h : primaryResult d = .ok (t, out)) :
    ∀ e, out.find? (fun e => e.page == 1) = some e → t = some e.text := by
  intro e he
  rcases hd : d.pages with _ | ⟨p, ps⟩
  · rw [primaryResult, hd] at h
    simp only [primaryPages] at h
    cases h
    cases he
  · rw [primaryResult, hd] at h
    simp only [primaryPages] at h
    rcases hstep : primaryLines (headingFonts d) 1
        ((none : Option ℚ).getD p.width) (none, []) (textLines p) with er | st1
    · rw [hstep] at h
      cases h
    · rw [hstep] at h
      rcases primaryLines_ok hstep with ⟨Δ1, hout1, hmem1, htitle1⟩
      have ht1 : st1.1 = (Δ1.head?).map Entry.text := by
        rw [htitle1]
        simp
      have ho1 : st1.2 = Δ1 := by simpa using hout1
      have htt : t = st1.1 := by
        have := primaryPages_title_ge2 (le_refl 2) h
        simpa using this
      rcases primaryPages_ok h with ⟨Δ2, hout2, hmem2⟩
      have hout : out = Δ1 ++ Δ2 := by
        have : out = st1.2 ++ Δ2 := by simpa using hout2
        rw [this, ho1]
      have hΔ1pages : ∀ e' ∈ Δ1, e'.page = 1 := by
        intro e' he'
        rcases hmem1 e' he' with ⟨l, -, sp, -, -, hpage, -⟩
        exact hpage
      have hΔ2pages : ∀ e' ∈ Δ2, e'.page ≠ 1 := by
        intro e' he'
        rcases hmem2 e' he' with ⟨p', -, j, hj, l, -, sp, -, -, hpage, -⟩
        omega
      rw [hout, List.find?_append] at he
      have hfind2 : Δ2.find? (fun e => e.page == 1) = none :=
        List.find?_eq_none.mpr fun x hx => by
          simpa using hΔ2pages x hx
      rw [hfind2] at he
      rw [Option.or_none] at he
      have hfind1 : Δ1.find? (fun e => e.page == 1) = Δ1.head? := by
        cases hΔ1 : Δ1 with
        | nil => rfl
        | cons a as =>
          rw [List.find?_cons_of_pos]
          · rfl
          · simp [hΔ1pages a (by rw [hΔ1]; exact List.mem_cons_self _ _)]
      rw [hfind1] at he
      rw [htt, ht1, he]
      rfl

/-- Witness for `C5_thm`: on `c5doc` the first (and only) page-1 entry is the
H2 entry and the title is its text. -/
theorem C5_thm_witness : (some "SubHead" : Option String) = some "SubHead" := by
  have h : primaryResult c5doc = .ok (some "SubHead",
      [⟨"H2", "SubHead", 1⟩]) := by
    norm_num +decide [primaryResult, primaryPages, primaryLines, primaryLine,
      headingFonts, sortDescStable, insDesc, boldFonts, fontUsage, docSpans,
      pagesSpans, textLines, bump, usageCount, hasWeightToken, strHas, subAt,
      lowerStr, weightTokens, pyStrip, idxOf, hLevel, c5doc]
  exact C5_thm h ⟨"H2", "SubHead", 1⟩ (by decide)

/-- C9 counterexample. A single-span line with non-empty text in a
heading font but a missing bounding box aborts `parse_outline` with an error:
the bounding box is read without a default, so not every missing span field
is recovered. -/
theorem C9_cex : parse_outline c9doc = .error "bbox" := by
  norm_num +decide [parse_outline, primaryResult, primaryPages, primaryLines,
    primaryLine, headingFonts, sortDescStable, insDesc, boldFonts, fontUsage,
    docSpans, pagesSpans, textLines, bump, usageCount, hasWeightToken, strHas,
    subAt, lowerStr, weightTokens, pyStrip, idxOf, hLevel, c9doc]

/-- C9 (amended). Missing size, font or text fields are replaced by
zero/empty defaults and never abort; only a heading *candidate* (single-span
line, non-empty stripped text, heading font) with a missing bounding box
aborts.  Whenever every candidate has a bounding box — in particular when
spans are missing all of size, font and text — extraction completes. -/
theorem C9_thm {d : Doc}
    (h : ∀ p ∈ d.pages, ∀ l ∈ textLines p, ∀ sp ∈ l.spans, l.spans = [sp] →
      pyStrip (sp.text.getD "") ≠ "" → (sp.font.getD "") ∈ headingFonts d →
      sp.bbox ≠ none) :
    ∃ r, parse_outline d = .ok r := by
  have h2 : ∀ p ∈ d.pages, ∀ l ∈ textLines p, ∀ sp, l.spans = [sp] →
      pyStrip (sp.text.getD "") ≠ "" → (sp.font.getD "") ∈ headingFonts d →
      sp.bbox ≠ none := by
    intro p hp l hl sp hspans
    exact h p hp l hl sp (by rw [hspans]; exact List.mem_cons_self _ _) hspans
  rcases @primaryPages_total (headingFonts d) d.pages (none, []) 1 none h2
    with ⟨⟨pt, po⟩, hst⟩
  have hpr : primaryResult d = .ok (pt, po) := hst
  by_cases hpo : po = []
  · subst hpo
    exact ⟨_, parse_outline_primary_empty hpr⟩
  · exact ⟨_, parse_outline_primary_nonempty hpo hpr⟩

/-- Witness for `C9_thm`: the all-fields-missing span of `c9wdoc` is handled
by the defaults and extraction completes. -/
theorem C9_thm_witness : ∃ r, parse_outline c9wdoc = .ok r :=
  C9_thm (d := c9wdoc) (by decide)

end PdfOutline
